import Mathlib

/-!
Shallow embedding of `ggbackuplib/ggbackup.py` (the `GGBackup` class of the
Google Groups backup tool).

Modelling conventions:
* Python dicts are association lists (`Dict α`) with Python's semantics:
  `dictGet` looks a key up, `dictInsert` updates an existing entry in place
  or appends a new entry at the end (insertion order preserved),
  `dictUpdate` is `dict.update` (fold of `dictInsert` over the argument's
  items).
* JSON-ish values stored in records and responses are `JVal`: string fields,
  numeric fields (used for page tokens in the API model), and the
  accumulated member list (member objects are opaque strings).
* The float ceiling `ceil(float(len(items)) / 1000.)` in `GGBackup.batch` is
  modelled by exact natural-number ceiling division.
* Fallible code (Python exceptions such as `KeyError`) returns
  `Except String`; the external Google APIs are oracles passed as function
  arguments; a sub-response of a batched HTTP request is
  `Except String Rec` (`.error` models the callback's `exception` argument).
* The self-recursive `run_next_batch` is modelled with explicit fuel; fuel
  exhaustion with a non-empty pending list is an `.error`, so a `.ok` result
  certifies genuine termination with no pending page request left.
-/

/-- A JSON-ish value held in a group record or API response. -/
inductive JVal where
  | str : String → JVal
  | num : Nat → JVal
  | arr : List String → JVal
deriving DecidableEq

/-- A Python dict with string keys, as an insertion-ordered association list. -/
abbrev Dict (α : Type) := List (String × α)

/-- A group record or API response body: a Python dict of `JVal` fields. -/
abbrev Rec := Dict JVal

/-- Python `d[k]` lookup (first, and for well-formed dicts only, entry). -/
def dictGet {α : Type} : Dict α → String → Option α
  | [], _ => none
  | (k', v) :: rest, k => if k' = k then some v else dictGet rest k

/-- Python `d[k] = v`: update an existing entry in place, else append. -/
def dictInsert {α : Type} : Dict α → String → α → Dict α
  | [], k, v => [(k, v)]
  | (k', v') :: rest, k, v =>
      if k' = k then (k, v) :: rest else (k', v') :: dictInsert rest k v

/-- Insert a list of key/value pairs in order (later pairs win). -/
def insertAll {α : Type} : Dict α → List (String × α) → Dict α
  | d, [] => d
  | d, (k, v) :: rest => insertAll (dictInsert d k v) rest

/-- Python `d.update(other)`: fold `dictInsert` over `other`'s items. -/
def dictUpdate {α : Type} (d other : Dict α) : Dict α :=
  insertAll d other

/-- The value of the last pair of the list carrying the given key, if any. -/
def lookupLast {α : Type} : List (String × α) → String → Option α
  | [], _ => none
  | (k', v) :: rest, k =>
      match lookupLast rest k with
      | some w => some w
      | none => if k' = k then some v else none

/-- The key list of a dict. -/
def dictKeys {α : Type} (d : Dict α) : List String :=
  d.map Prod.fst

/-- `GGBackup.batch`: `ceil(float(len(items)) / 1000.)` slices
`items[i*1000:(i+1)*1000]` collected by a counting loop. -/
def batch {α : Type} (items : List α) : List (List α) :=
  (List.range ((items.length + 999) / 1000)).map
    (fun i => (items.drop (i * 1000)).take 1000)

/-- Python `str.lower()`: ASCII case folding applied per character
(`String.toLower` itself is not used: its well-founded recursion does not
reduce in the kernel). -/
def pyLower (s : String) : String := ⟨s.data.map Char.toLower⟩

/-- The result of one sub-request of a batched HTTP call: the callback's
`exception` argument (`.error`) or its `response` dict (`.ok`). -/
abbrev SubResult := Except String Rec

/-- The attributes of a `GGBackup` instance. Opaque collaborator handles
(`http_auth`, `credentials`, `service`, `gsetservice`) are `Option Unit`:
only their being set matters to the code under proof. `_group_batches` is
not assigned by `__init__`; `none` models the attribute being unset. -/
structure GGBackup where
  domain : String
  http_auth : Option Unit
  credentials : Option Unit
  service : Option Unit
  gsetservice : Option Unit
  groups : Dict Rec
  _group_batch : Option (List (List String))
  _group_batches : Option (List (List String))
deriving DecidableEq

/-- `GGBackup.check_auth`: raise for the first unset session component. -/
def check_auth (g : GGBackup) : Except String Unit :=
  if g.http_auth = none then .error "HTTP Auth not completed."
  else if g.service = none then .error "Admin SDK service is not available."
  else if g.gsetservice = none then
    .error "Groups Settings service is not available."
  else .ok ()

/-- The `group_batches` property. As in the source, the guard reads
`_group_batch` while the computed value is stored in `_group_batches`;
reading `_group_batches` while unset would be a Python `AttributeError`,
modelled as `.error`. -/
def group_batches (g : GGBackup) :
    Except String (List (List String) × GGBackup) :=
  match g._group_batch with
  | none =>
      let b := batch (dictKeys g.groups)
      .ok (b, { g with _group_batches := some b })
  | some _ =>
      match g._group_batches with
      | some b => .ok (b, g)
      | none => .error "AttributeError: _group_batches"

/-- The insertion loop of `get_groups`:
`self.groups[group['email'].lower()] = group` for each returned group. -/
def insertGroups (groups : Dict Rec) : List Rec → Except String (Dict Rec)
  | [] => .ok groups
  | gr :: rest =>
      match dictGet gr "email" with
      | some (JVal.str em) =>
          insertGroups (dictInsert groups (pyLower em) gr) rest
      | some _ => .error "AttributeError: lower"
      | none => .error "KeyError: email"

/-- `GGBackup.get_groups`: after `check_auth`, consume listing pages (the
Directory API is modelled as the already-paginated page list, the
`list` / `list_next` cursor loop visiting them in order) and insert every
returned group keyed by its lowercased `email`. -/
def get_groups (g : GGBackup) (pages : List (List Rec)) :
    Except String GGBackup :=
  match check_auth g with
  | .error e => .error e
  | .ok _ =>
      match insertGroups g.groups pages.flatten with
      | .error e => .error e
      | .ok gs => .ok { g with groups := gs }

/-- The `add_settings` callback of `get_settings` (the request id is unused
by the source). On an exception it only logs a warning; on success it merges
the response into the record found under the lowercased `email` response
field; a missing record key is a Python `KeyError`. -/
def add_settings (groups : Dict Rec) (requestId : String) (r : SubResult) :
    Except String (Dict Rec) :=
  match r with
  | .error _ => .ok groups
  | .ok resp =>
      match dictGet resp "email" with
      | some (JVal.str em) =>
          match dictGet groups (pyLower em) with
          | some email =>
              .ok (dictInsert groups (pyLower em) (dictUpdate email resp))
          | none => .error ("KeyError: " ++ pyLower em)
      | some _ => .error "AttributeError: lower"
      | none => .error "KeyError: email"

/-- Deliver one batch's settings sub-responses to `add_settings` in order. -/
def process_settings (groups : Dict Rec) :
    List (String × SubResult) → Except String (Dict Rec)
  | [] => .ok groups
  | (rid, r) :: rest =>
      match add_settings groups rid r with
      | .error e => .error e
      | .ok g1 => process_settings g1 rest

/-- The batch loop of `get_settings` over the cached group batches; `sapi`
is the Groups Settings oracle giving each sub-request's sub-response. -/
def settings_batches (sapi : String → SubResult) (groups : Dict Rec) :
    List (List String) → Except String (Dict Rec)
  | [] => .ok groups
  | b :: rest =>
      match process_settings groups (b.map fun gid => (gid, sapi gid)) with
      | .error e => .error e
      | .ok g1 => settings_batches sapi g1 rest

/-- `GGBackup.get_settings`: check the session, read the `group_batches`
property, then execute one batched request per batch. -/
def get_settings (g : GGBackup) (sapi : String → SubResult) :
    Except String GGBackup :=
  match check_auth g with
  | .error e => .error e
  | .ok _ =>
      match group_batches g with
      | .error e => .error e
      | .ok (bs, g1) =>
          match settings_batches sapi g1.groups bs with
          | .error e => .error e
          | .ok gs => .ok { g1 with groups := gs }

/-- `response.get('members', [])` as used by `add_members`: the member list
of a membership response; `none` when the field holds a non-list value
(Python would raise a `TypeError` on `+=`). -/
def respMembers (resp : Rec) : Option (List String) :=
  match dictGet resp "members" with
  | some (JVal.arr ms) => some ms
  | none => some []
  | some _ => none

/-- The pending-list extension performed by `add_members`: when the
response carries a `nextPageToken`, the prepared next-page request
`(request_id, token)` is appended to `self._next_batch`. -/
def nextBatchAfter (nb : List (String × JVal)) (request_id : String)
    (resp : Rec) : List (String × JVal) :=
  match dictGet resp "nextPageToken" with
  | some tok => nb ++ [(request_id, tok)]
  | none => nb

/-- The `add_members` callback of `get_members`: on an exception it only
logs a warning; on success it appends the returned members to
`self.groups[request_id]` (creating `members` as `[]` first when absent)
and, when the response carries a `nextPageToken`, appends
`(request_id, prepared next-page request)` to `self._next_batch`; the
prepared request is represented by the group id paired with the token. -/
def add_members (groups : Dict Rec) (next_batch : List (String × JVal))
    (request_id : String) (r : SubResult) :
    Except String (Dict Rec × List (String × JVal)) :=
  match r with
  | .error _ => .ok (groups, next_batch)
  | .ok resp =>
      match dictGet groups request_id with
      | none => .error ("KeyError: " ++ request_id)
      | some email =>
          let email1 := if dictGet email "members" = none then
            dictInsert email "members" (JVal.arr []) else email
          match dictGet email1 "members", respMembers resp with
          | some (JVal.arr xs), some ms =>
              let email2 := dictInsert email1 "members" (JVal.arr (xs ++ ms))
              let groups1 := dictInsert groups request_id email2
              let nb1 := match dictGet resp "nextPageToken" with
                | some tok => next_batch ++ [(request_id, tok)]
                | none => next_batch
              .ok (groups1, nb1)
          | _, _ => .error "TypeError: members"

/-- Deliver one batch's membership sub-responses to `add_members` in order. -/
def process_members (st : Dict Rec × List (String × JVal)) :
    List (String × SubResult) →
      Except String (Dict Rec × List (String × JVal))
  | [] => .ok st
  | (rid, r) :: rest =>
      match add_members st.1 st.2 rid r with
      | .error e => .error e
      | .ok st1 => process_members st1 rest

/-- The membership-fetch working state: the group map, the pending
next-page list `self._next_batch`, and the log of issued membership-list
fetch calls as `(groupKey, page token)` pairs. -/
structure MState where
  groups : Dict Rec
  next_batch : List (String × JVal)
  calls : List (String × Option JVal)
deriving DecidableEq

/-- One first-pass batch: each sub-request is
`members.list(groupKey=group)` with `request_id=group.lower()`; the
membership oracle `mapi` maps `(groupKey, token?)` to the sub-response. -/
def first_pass_batch (mapi : String → Option JVal → SubResult) (st : MState) :
    List String → Except String MState
  | [] => .ok st
  | group :: rest =>
      let st1 : MState := { st with calls := st.calls ++ [(group, none)] }
      match add_members st1.groups st1.next_batch (pyLower group)
          (mapi group none) with
      | .error e => .error e
      | .ok (gs, nb) =>
          first_pass_batch mapi { st1 with groups := gs, next_batch := nb } rest

/-- The first-pass loop of `get_members` over the cached group batches. -/
def first_pass (mapi : String → Option JVal → SubResult) (st : MState) :
    List (List String) → Except String MState
  | [] => .ok st
  | b :: rest =>
      match first_pass_batch mapi st b with
      | .error e => .error e
      | .ok st1 => first_pass mapi st1 rest

/-- One re-batched continuation batch: each pending entry executes the
prepared request `members.list(groupKey=request_id, nextPage=token)` with
`request_id` as correlation id. -/
def next_page_batch (mapi : String → Option JVal → SubResult) (st : MState) :
    List (String × JVal) → Except String MState
  | [] => .ok st
  | (rid, tok) :: rest =>
      let st1 : MState := { st with calls := st.calls ++ [(rid, some tok)] }
      match add_members st1.groups st1.next_batch rid (mapi rid (some tok)) with
      | .error e => .error e
      | .ok (gs, nb) =>
          next_page_batch mapi { st1 with groups := gs, next_batch := nb } rest

/-- The batch loop inside one `run_next_batch` invocation. -/
def next_page_batches (mapi : String → Option JVal → SubResult) (st : MState) :
    List (List (String × JVal)) → Except String MState
  | [] => .ok st
  | b :: rest =>
      match next_page_batch mapi st b with
      | .error e => .error e
      | .ok st1 => next_page_batches mapi st1 rest

/-- `run_next_batch`: take the pending list, clear it, re-partition it with
`batch`, execute every sub-request, then call itself. The Python function is
self-recursive with no bound; the model adds fuel, and exhausting the fuel
with work remaining is an `.error`, so an `.ok` certifies termination with
an empty pending list. -/
def run_next_batch (mapi : String → Option JVal → SubResult) :
    Nat → MState → Except String MState
  | 0, st => if st.next_batch = [] then .ok st else .error "fuel exhausted"
  | fuel + 1, st =>
      if st.next_batch = [] then .ok st
      else
        match next_page_batches mapi { st with next_batch := [] }
            (batch st.next_batch) with
        | .error e => .error e
        | .ok st1 => run_next_batch mapi fuel st1

/-- The call-stack depth of `run_next_batch`'s self-recursion: the number of
nested `run_next_batch` frames live at the deepest point of the run (each
non-empty round returns only after its recursive call returns). -/
def run_next_batch_depth (mapi : String → Option JVal → SubResult) :
    Nat → MState → Nat
  | 0, _ => 1
  | fuel + 1, st =>
      if st.next_batch = [] then 1
      else
        match next_page_batches mapi { st with next_batch := [] }
            (batch st.next_batch) with
        | .error _ => 1
        | .ok st1 => 1 + run_next_batch_depth mapi fuel st1

/-- `GGBackup.get_members`: check the session, clear `_next_batch`, run the
first pass over the cached group batches, then `run_next_batch()`; returns
the updated instance and the log of issued fetch calls. -/
def get_members (g : GGBackup) (mapi : String → Option JVal → SubResult)
    (fuel : Nat) : Except String (GGBackup × List (String × Option JVal)) :=
  match check_auth g with
  | .error e => .error e
  | .ok _ =>
      match group_batches g with
      | .error e => .error e
      | .ok (bs, g1) =>
          match first_pass mapi
              { groups := g1.groups, next_batch := [], calls := [] } bs with
          | .error e => .error e
          | .ok st =>
              match run_next_batch mapi fuel st with
              | .error e => .error e
              | .ok st1 => .ok ({ g1 with groups := st1.groups }, st1.calls)

/-- The call-stack depth reached by the `run_next_batch()` call at the end
of `get_members` (0 when the run fails before that call). -/
def get_members_stack_depth (g : GGBackup)
    (mapi : String → Option JVal → SubResult) (fuel : Nat) : Nat :=
  match check_auth g with
  | .error _ => 0
  | .ok _ =>
      match group_batches g with
      | .error _ => 0
      | .ok (bs, g1) =>
          match first_pass mapi
              { groups := g1.groups, next_batch := [], calls := [] } bs with
          | .error _ => 0
          | .ok st => run_next_batch_depth mapi fuel st

/-- Membership page `i` (0-based) of a group with `n` pages in the C4/C8
scenario: an empty member list plus a numeric continuation token to page
`i + 1` whenever more pages remain. -/
def memPage (n i : Nat) : Rec :=
  ("members", JVal.arr []) ::
    (if i + 1 < n then [("nextPageToken", JVal.num (i + 1))] else [])

/-- The membership oracle of the C4/C8 scenario: a token `num i` fetches
page `i`; no token fetches page 0. -/
def apiN (n : Nat) : String → Option JVal → SubResult := fun _ tok =>
  match tok with
  | none => .ok (memPage n 0)
  | some (JVal.num i) => .ok (memPage n i)
  | some _ => .error "bad token"

/-- A session with one group `"g"` and every session handle set. -/
def scenarioG : GGBackup :=
  { domain := "example.com", http_auth := some (), credentials := some (),
    service := some (), gsetservice := some (), groups := [("g", [])],
    _group_batch := none, _group_batches := none }

/-- The expected fetch-call log for the `n`-page scenario: one tokenless
first-page call, then one call per continuation token `1, …, n - 1`. -/
def callsOf (n : Nat) : List (String × Option JVal) :=
  ("g", none) ::
    (List.range' 1 (n - 1)).map (fun j => ("g", some (JVal.num j)))

/-- The membership state after the first pass of the `n`-page scenario. -/
def fpState (n : Nat) : MState :=
  { groups := [("g", [("members", JVal.arr [])])],
    next_batch := if 1 < n then [("g", JVal.num 1)] else [],
    calls := [("g", none)] }

def recA : Rec := [("email", JVal.str "a@x.com")]

def recB : Rec := [("email", JVal.str "b@x.com")]

/-- A session holding one group, before any `group_batches` access. -/
def c2_state0 : GGBackup :=
  { domain := "x.com", http_auth := some (), credentials := some (),
    service := some (), gsetservice := some (), groups := [("a@x.com", recA)],
    _group_batch := none, _group_batches := none }

/-- `c2_state0` after the first `group_batches` access. -/
def c2_state1 : GGBackup :=
  { c2_state0 with _group_batches := some [["a@x.com"]] }

/-- `c2_state1` after a further group is inserted into the record map. -/
def c2_state2 : GGBackup :=
  { c2_state1 with groups := dictInsert c2_state1.groups "b@x.com" recB }

/-- `c2_state2` after the second `group_batches` access. -/
def c2_state3 : GGBackup :=
  { c2_state2 with _group_batches := some [["a@x.com", "b@x.com"]] }

/-- The map key `group['email'].lower()` computed by `get_groups`'s
insertion, `none` when the `email` field is absent or not a string. -/
def groupKey (gr : Rec) : Option String :=
  match dictGet gr "email" with
  | some (JVal.str em) => some (pyLower em)
  | _ => none

/-- The key/value pairs inserted by `get_groups` for a listing result. -/
def groupPairs (L : List Rec) : List (String × Rec) :=
  L.map fun gr => ((groupKey gr).getD "", gr)

def c5_email : Rec :=
  [("email", JVal.str "a@x.com"), ("f", JVal.str "old"), ("keep", JVal.str "k")]

def c5_groups : Dict Rec :=
  [("a@x.com", c5_email), ("A@x.com", [("email", JVal.str "decoy")])]

def c5_resp : Rec := [("email", JVal.str "A@x.com"), ("f", JVal.str "new")]

def c7_rec : Rec := [("email", JVal.str "A@x.com"), ("id", JVal.str "123")]

def c7_g0 : GGBackup := { scenarioG with groups := [] }

def c7_pages : List (List Rec) := [[c7_rec]]

def c7_g1 : GGBackup := { c7_g0 with groups := [("a@x.com", c7_rec)] }

def c9_bad1 : GGBackup := { scenarioG with http_auth := none }

def c9_bad2 : GGBackup := { scenarioG with service := none }

def c9_bad3 : GGBackup := { scenarioG with gsetservice := none }

def c10_groups : Dict Rec := [("b@y.com", [("email", JVal.str "b@y.com")])]

def c10_resp : Rec := [("email", JVal.str "A@x.com")]

theorem batch_nil {α : Type} : batch ([] : List α) = [] := by
  simp [batch]

theorem batch_length {α : Type} (l : List α) :
    (batch l).length = (l.length + 999) / 1000 := by
  simp [batch]

theorem batch_cons {α : Type} (l : List α) (h : l ≠ []) :
    batch l = l.take 1000 :: batch (l.drop 1000) := by
  have hlen : 0 < l.length := List.length_pos.mpr h
  have hcount : (l.length + 999) / 1000 = ((l.drop 1000).length + 999) / 1000 + 1 := by
    rw [List.length_drop]
    omega
  unfold batch
  rw [hcount, List.range_succ_eq_map, List.map_cons, List.map_map,
    List.cons.injEq]
  refine ⟨by simp, ?_⟩
  apply List.map_congr_left
  intro i _
  simp only [Function.comp_apply, List.drop_drop]
  have hmul : i.succ * 1000 = 1000 + i * 1000 := by omega
  rw [hmul]

theorem batch_join {α : Type} (l : List α) : (batch l).flatten = l := by
  by_cases h : l = []
  · subst h
    rw [batch_nil]
    rfl
  · rw [batch_cons l h, List.flatten_cons, batch_join (l.drop 1000),
      List.take_append_drop]
termination_by l.length
decreasing_by
  simp only [List.length_drop]
  have : 0 < l.length := List.length_pos.mpr h
  omega

theorem batch_chunk_le {α : Type} (l : List α) (c : List α)
    (hc : c ∈ batch l) : c.length ≤ 1000 := by
  rw [batch] at hc
  obtain ⟨i, _, rfl⟩ := List.mem_map.mp hc
  calc ((l.drop (i * 1000)).take 1000).length ≤ 1000 := by
        simp [List.length_take]

theorem batch_chunk_ne_nil {α : Type} (l : List α) (c : List α)
    (hc : c ∈ batch l) : c ≠ [] := by
  rw [batch] at hc
  obtain ⟨i, hi, rfl⟩ := List.mem_map.mp hc
  rw [List.mem_range] at hi
  have hmul : i * 1000 < l.length := by omega
  have : 0 < ((l.drop (i * 1000)).take 1000).length := by
    simp only [List.length_take, List.length_drop]
    omega
  exact List.ne_nil_of_length_pos this

theorem dictGet_insert {α : Type} (d : Dict α) (k k' : String) (v : α) :
    dictGet (dictInsert d k v) k' = if k = k' then some v else dictGet d k' := by
  induction d with
  | nil => simp [dictInsert, dictGet]
  | cons hd tl ih =>
      obtain ⟨k0, v0⟩ := hd
      rw [dictInsert]
      by_cases h0 : k0 = k
      · rw [if_pos h0, dictGet, dictGet]
        subst h0
        by_cases h1 : k0 = k'
        · rw [if_pos h1, if_pos h1]
        · rw [if_neg h1, if_neg h1, if_neg h1]
      · rw [if_neg h0, dictGet, dictGet, ih]
        by_cases h1 : k0 = k'
        · have h2 : ¬k = k' := fun he => h0 (h1.trans he.symm)
          rw [if_pos h1, if_pos h1, if_neg h2]
        · rw [if_neg h1, if_neg h1]

theorem dictKeys_cons {α : Type} (k0 : String) (v0 : α) (tl : Dict α) :
    dictKeys ((k0, v0) :: tl) = k0 :: dictKeys tl := rfl

theorem dictKeys_insert {α : Type} (d : Dict α) (k : String) (v : α) :
    dictKeys (dictInsert d k v) =
      if k ∈ dictKeys d then dictKeys d else dictKeys d ++ [k] := by
  induction d with
  | nil => simp [dictInsert, dictKeys]
  | cons hd tl ih =>
      obtain ⟨k0, v0⟩ := hd
      rw [dictInsert]
      by_cases h0 : k0 = k
      · subst h0
        rw [if_pos rfl, dictKeys_cons, dictKeys_cons,
          if_pos (List.mem_cons_self _ _)]
      · rw [if_neg h0, dictKeys_cons, dictKeys_cons, ih]
        have hne : k ≠ k0 := fun he => h0 he.symm
        have hiff : (k ∈ k0 :: dictKeys tl) ↔ (k ∈ dictKeys tl) := by
          rw [List.mem_cons]
          exact ⟨fun h => h.resolve_left hne, Or.inr⟩
        by_cases h1 : k ∈ dictKeys tl
        · rw [if_pos h1, if_pos (hiff.mpr h1)]
        · rw [if_neg h1, if_neg (fun h => h1 (hiff.mp h))]
          rfl

theorem mem_dictKeys_insert_self {α : Type} (d : Dict α) (k : String) (v : α) :
    k ∈ dictKeys (dictInsert d k v) := by
  rw [dictKeys_insert]
  by_cases h : k ∈ dictKeys d
  · rw [if_pos h]; exact h
  · rw [if_neg h]; simp

theorem mem_dictKeys_insert_of_mem {α : Type} (d : Dict α) (k k' : String)
    (v : α) (h : k' ∈ dictKeys d) : k' ∈ dictKeys (dictInsert d k v) := by
  rw [dictKeys_insert]
  by_cases h0 : k ∈ dictKeys d
  · rw [if_pos h0]; exact h
  · rw [if_neg h0]; exact List.mem_append_left _ h

theorem mem_dictKeys_insertAll_of_mem {α : Type} (P : List (String × α))
    (d : Dict α) (k : String) (h : k ∈ dictKeys d) :
    k ∈ dictKeys (insertAll d P) := by
  induction P generalizing d with
  | nil => exact h
  | cons hd tl ih =>
      obtain ⟨k0, v0⟩ := hd
      exact ih (dictInsert d k0 v0) (mem_dictKeys_insert_of_mem d k0 k v0 h)

theorem mem_dictKeys_insertAll {α : Type} (P : List (String × α)) (d : Dict α)
    (k : String) (v : α) (h : (k, v) ∈ P) : k ∈ dictKeys (insertAll d P) := by
  induction P generalizing d with
  | nil => cases h
  | cons hd tl ih =>
      obtain ⟨k0, v0⟩ := hd
      rcases List.mem_cons.mp h with heq | htl
      · cases heq
        exact mem_dictKeys_insertAll_of_mem tl (dictInsert d k v) k
          (mem_dictKeys_insert_self d k v)
      · exact ih (dictInsert d k0 v0) htl

theorem dictKeys_insertAll_of_subset {α : Type} (P : List (String × α))
    (d : Dict α) (h : ∀ kv ∈ P, kv.1 ∈ dictKeys d) :
    dictKeys (insertAll d P) = dictKeys d := by
  induction P generalizing d with
  | nil => rfl
  | cons hd tl ih =>
      obtain ⟨k0, v0⟩ := hd
      rw [insertAll]
      have hk0 : k0 ∈ dictKeys d := h (k0, v0) (List.mem_cons_self _ _)
      have hkeys : dictKeys (dictInsert d k0 v0) = dictKeys d := by
        rw [dictKeys_insert, if_pos hk0]
      rw [ih (dictInsert d k0 v0) (fun kv hkv => hkeys ▸ h kv (List.mem_cons_of_mem _ hkv)),
        hkeys]

theorem dictGet_insertAll {α : Type} (P : List (String × α)) (d : Dict α)
    (k : String) :
    dictGet (insertAll d P) k =
      match lookupLast P k with
      | some v => some v
      | none => dictGet d k := by
  induction P generalizing d with
  | nil => rfl
  | cons hd tl ih =>
      obtain ⟨k0, v0⟩ := hd
      rw [insertAll, ih (dictInsert d k0 v0), lookupLast]
      cases lookupLast tl k with
      | some w => rfl
      | none =>
          rw [dictGet_insert]
          by_cases h0 : k0 = k
          · rw [if_pos h0, if_pos h0]
          · rw [if_neg h0, if_neg h0]

theorem dictGet_eq_none_of_not_mem {α : Type} (P : Dict α) (k : String)
    (h : k ∉ dictKeys P) : dictGet P k = none := by
  induction P with
  | nil => rfl
  | cons hd tl ih =>
      obtain ⟨k0, v0⟩ := hd
      rw [dictGet]
      have h0 : ¬k0 = k := by
        intro he
        exact h (by simp [dictKeys, he])
      rw [if_neg h0]
      exact ih (fun hm => h (by simp [dictKeys] at hm ⊢; exact Or.inr hm))

theorem lookupLast_eq_dictGet_of_nodup {α : Type} (P : List (String × α))
    (k : String) (h : (P.map Prod.fst).Nodup) :
    lookupLast P k = dictGet P k := by
  induction P with
  | nil => rfl
  | cons hd tl ih =>
      obtain ⟨k0, v0⟩ := hd
      rw [List.map_cons, List.nodup_cons] at h
      obtain ⟨hk0, htl⟩ := h
      rw [lookupLast, dictGet, ih htl]
      by_cases h0 : k0 = k
      · subst h0
        rw [dictGet_eq_none_of_not_mem tl k0 hk0]
      · cases hdg : dictGet tl k with
        | some w =>
            show some w = if k0 = k then some v0 else some w
            rw [if_neg h0]
        | none =>
            show (if k0 = k then some v0 else none) =
              if k0 = k then some v0 else none
            rfl

/-- C1: `batch` (the spec's `partition` with size 1000) returns contiguous
chunks whose in-order concatenation reproduces the input exactly (no
duplication or loss); every chunk has length at most 1000; the number of
chunks is `ceil(len / 1000)`; the empty sequence yields zero chunks; and
every produced chunk is non-empty, so an exact multiple of 1000 leaves no
empty trailing chunk. -/
theorem C1_batch_partition {α : Type} (items : List α) :
    (batch items).flatten = items
    ∧ ((batch items).all fun c => decide (c.length ≤ 1000)) = true
    ∧ (batch items).length = (items.length + 999) / 1000
    ∧ batch ([] : List α) = []
    ∧ ((batch items).all fun c => !c.isEmpty) = true := by
  refine ⟨batch_join items, ?_, batch_length items, batch_nil, ?_⟩
  · rw [List.all_eq_true]
    intro c hc
    exact decide_eq_true (batch_chunk_le items c hc)
  · rw [List.all_eq_true]
    intro c hc
    have := batch_chunk_ne_nil items c hc
    simp [List.isEmpty_iff, this]

/-- C2: the claim states that `group_batches` computes the partition exactly
once per session and caches it, so that insertions after the first access
are not reflected in later accesses. The code contradicts this (and its own
caching intent): the cache guard reads `_group_batch` while the computed
value is stored into `_group_batches`, so the guard never trips. After a
first access returning `[["a@x.com"]]`, the guard attribute is still unset,
and a second access made after inserting `"b@x.com"` recomputes the
partition and returns `[["a@x.com", "b@x.com"]]`, not the cached value. -/
theorem C2_group_batches_recomputes :
    group_batches c2_state0 = .ok ([["a@x.com"]], c2_state1)
    ∧ c2_state1._group_batch = none
    ∧ c2_state2.groups = dictInsert c2_state1.groups "b@x.com" recB
    ∧ group_batches c2_state2 = .ok ([["a@x.com", "b@x.com"]], c2_state3)
    ∧ ([["a@x.com", "b@x.com"]] : List (List String)) ≠ [["a@x.com"]] := by
  refine ⟨rfl, rfl, rfl, rfl, ?_⟩
  decide

/-- C6: a sub-request whose sub-response reports an exception is skipped
with no state change, for both `add_settings` and `add_members`, and it
does not prevent the remaining sub-responses of the same batch from being
merged: processing a batch with an errored item anywhere in the middle
equals processing the same batch without that item. -/
theorem C6_error_isolation (groups : Dict Rec) (nb : List (String × JVal))
    (rs1 rs2 : List (String × SubResult)) (rid : String) (e : String) :
    add_settings groups rid (.error e) = .ok groups
    ∧ add_members groups nb rid (.error e) = .ok (groups, nb)
    ∧ process_settings groups (rs1 ++ (rid, .error e) :: rs2) =
        process_settings groups (rs1 ++ rs2)
    ∧ process_members (groups, nb) (rs1 ++ (rid, .error e) :: rs2) =
        process_members (groups, nb) (rs1 ++ rs2) := by
  refine ⟨rfl, rfl, ?_, ?_⟩
  · induction rs1 generalizing groups with
    | nil => rfl
    | cons hd tl ih =>
        obtain ⟨rid0, r0⟩ := hd
        simp only [List.cons_append, process_settings]
        cases h0 : add_settings groups rid0 r0 with
        | error e0 => rfl
        | ok g1 => exact ih g1
  · induction rs1 generalizing groups nb with
    | nil => rfl
    | cons hd tl ih =>
        obtain ⟨rid0, r0⟩ := hd
        simp only [List.cons_append, process_members]
        cases h0 : add_members groups nb rid0 r0 with
        | error e0 => rfl
        | ok st1 => exact ih st1.1 st1.2

/-- C9: `check_auth` reports the first unset session component with its
specific message, and each data-fetch operation (`get_groups`,
`get_settings`, `get_members`) raises that error before issuing any fetch
and without touching the group-record map. -/
theorem C9_require_session (g : GGBackup) (pages : List (List Rec))
    (sapi : String → SubResult) (mapi : String → Option JVal → SubResult)
    (fuel : Nat) :
    (check_auth g =
      match g.http_auth, g.service, g.gsetservice with
      | none, _, _ => .error "HTTP Auth not completed."
      | some _, none, _ => .error "Admin SDK service is not available."
      | some _, some _, none =>
          .error "Groups Settings service is not available."
      | some _, some _, some _ => .ok ())
    ∧ ∀ e, check_auth g = .error e →
        get_groups g pages = .error e
        ∧ get_settings g sapi = .error e
        ∧ get_members g mapi fuel = .error e := by
  constructor
  · cases g with
    | mk d ha hc hs hgset hgr b1 b2 =>
        cases ha <;> cases hs <;> cases hgset <;> simp [check_auth]
  · intro e he
    exact ⟨by simp [get_groups, he], by simp [get_settings, he],
      by simp [get_members, he]⟩

/-- Witness for C9: each data-fetch operation raises the specific message of
the first missing session component on concrete sessions. -/
theorem C9_require_session_witness :
    get_groups c9_bad1 [] = .error "HTTP Auth not completed."
    ∧ get_settings c9_bad2 (fun _ => .error "x") =
        .error "Admin SDK service is not available."
    ∧ get_members c9_bad3 (fun _ _ => .error "x") 0 =
        .error "Groups Settings service is not available." :=
  ⟨((C9_require_session c9_bad1 [] (fun _ => .error "x")
      (fun _ _ => .error "x") 0).2 _ rfl).1,
   ((C9_require_session c9_bad2 [] (fun _ => .error "x")
      (fun _ _ => .error "x") 0).2 _ rfl).2.1,
   ((C9_require_session c9_bad3 [] (fun _ => .error "x")
      (fun _ _ => .error "x") 0).2 _ rfl).2.2⟩

theorem add_members_ok (groups : Dict Rec) (nb : List (String × JVal))
    (g : String) (r resp : Rec) (xs ms : List String)
    (hg : dictGet groups g = some r)
    (hmem : dictGet r "members" = some (JVal.arr xs))
    (hresp : respMembers resp = some ms) :
    add_members groups nb g (.ok resp) =
      .ok (dictInsert groups g (dictInsert r "members" (JVal.arr (xs ++ ms))),
        nextBatchAfter nb g resp) := by
  cases htok : dictGet resp "nextPageToken" with
  | none => simp [add_members, hg, hmem, hresp, nextBatchAfter, htok]
  | some tok => simp [add_members, hg, hmem, hresp, nextBatchAfter, htok]

theorem add_members_ok_absent (groups : Dict Rec) (nb : List (String × JVal))
    (g : String) (r resp : Rec) (ms : List String)
    (hg : dictGet groups g = some r)
    (hmem : dictGet r "members" = none)
    (hresp : respMembers resp = some ms) :
    add_members groups nb g (.ok resp) =
      .ok (dictInsert groups g
          (dictInsert (dictInsert r "members" (JVal.arr [])) "members"
            (JVal.arr ms)),
        nextBatchAfter nb g resp) := by
  cases htok : dictGet resp "nextPageToken" with
  | none => simp [add_members, hg, hmem, hresp, nextBatchAfter, htok,
      dictGet_insert]
  | some tok => simp [add_members, hg, hmem, hresp, nextBatchAfter, htok,
      dictGet_insert]

/-- C3: successive successful membership pages are appended to the group's
`members` sequence in page order, the sequence being created as `[]` when
absent: starting from a record without `members`, two successful pages with
member lists `ms1` and `ms2` leave the record holding exactly `ms1 ++ ms2`
(so pages of 2 and 3 members give 5 in page order, and all-empty pages give
`members = []` present rather than the field being absent). -/
theorem C3_members_accumulation (groups : Dict Rec) (nb : List (String × JVal))
    (g : String) (r resp1 resp2 : Rec) (ms1 ms2 : List String)
    (hg : dictGet groups g = some r)
    (hm : dictGet r "members" = none)
    (h1 : respMembers resp1 = some ms1)
    (h2 : respMembers resp2 = some ms2) :
    ∃ groups1 nb1 groups2 nb2 r2,
      add_members groups nb g (.ok resp1) = .ok (groups1, nb1)
      ∧ add_members groups1 nb1 g (.ok resp2) = .ok (groups2, nb2)
      ∧ dictGet groups2 g = some r2
      ∧ dictGet r2 "members" = some (JVal.arr (ms1 ++ ms2)) := by
  have hg1 : dictGet
      (dictInsert groups g
        (dictInsert (dictInsert r "members" (JVal.arr [])) "members"
          (JVal.arr ms1))) g =
      some (dictInsert (dictInsert r "members" (JVal.arr [])) "members"
        (JVal.arr ms1)) := by
    rw [dictGet_insert]
    simp
  have hm1 : dictGet
      (dictInsert (dictInsert r "members" (JVal.arr [])) "members"
        (JVal.arr ms1)) "members" = some (JVal.arr ms1) := by
    rw [dictGet_insert]
    simp
  refine ⟨_, _, _, _,
    dictInsert (dictInsert (dictInsert r "members" (JVal.arr [])) "members"
      (JVal.arr ms1)) "members" (JVal.arr (ms1 ++ ms2)),
    add_members_ok_absent groups nb g r resp1 ms1 hg hm h1,
    add_members_ok _ _ g _ resp2 ms1 ms2 hg1 hm1 h2, ?_, ?_⟩
  · rw [dictGet_insert]
    simp
  · rw [dictGet_insert]
    simp

/-- Witness for C3: pages of 2 then 3 members leave `members` holding the
five members in page order; two empty pages leave `members = []` present. -/
theorem C3_members_accumulation_witness :
    (∃ groups1 nb1 groups2 nb2 r2,
      add_members [("g", [("email", JVal.str "g")])] [] "g"
          (.ok [("members", JVal.arr ["m1", "m2"])]) = .ok (groups1, nb1)
      ∧ add_members groups1 nb1 "g"
          (.ok [("members", JVal.arr ["m3", "m4", "m5"])]) = .ok (groups2, nb2)
      ∧ dictGet groups2 "g" = some r2
      ∧ dictGet r2 "members" =
          some (JVal.arr (["m1", "m2"] ++ ["m3", "m4", "m5"])))
    ∧ (∃ groups1 nb1 groups2 nb2 r2,
      add_members [("g", [("email", JVal.str "g")])] [] "g"
          (.ok [("members", JVal.arr [])]) = .ok (groups1, nb1)
      ∧ add_members groups1 nb1 "g" (.ok []) = .ok (groups2, nb2)
      ∧ dictGet groups2 "g" = some r2
      ∧ dictGet r2 "members" = some (JVal.arr ([] ++ []))) :=
  ⟨C3_members_accumulation [("g", [("email", JVal.str "g")])] [] "g"
      [("email", JVal.str "g")] [("members", JVal.arr ["m1", "m2"])]
      [("members", JVal.arr ["m3", "m4", "m5"])] ["m1", "m2"]
      ["m3", "m4", "m5"] rfl rfl rfl rfl,
   C3_members_accumulation [("g", [("email", JVal.str "g")])] [] "g"
      [("email", JVal.str "g")] [("members", JVal.arr [])] [] [] []
      rfl rfl rfl rfl⟩

/-- C5: a successful settings sub-response whose lowercased `email` is a key
of the group map merges exactly the response's fields into the record stored
under the lowercased key: response fields win, record fields absent from the
response are unchanged, and every other record of the map is untouched. -/
theorem C5_settings_merge (groups : Dict Rec) (rid : String)
    (resp email : Rec) (em : String)
    (hemail : dictGet resp "email" = some (JVal.str em))
    (hnodup : (resp.map Prod.fst).Nodup)
    (hkey : dictGet groups (pyLower em) = some email) :
    add_settings groups rid (.ok resp) =
      .ok (dictInsert groups (pyLower em) (dictUpdate email resp))
    ∧ (∀ f, dictGet (dictUpdate email resp) f =
        match dictGet resp f with
        | some v => some v
        | none => dictGet email f)
    ∧ ∀ k, k ≠ pyLower em →
        dictGet (dictInsert groups (pyLower em) (dictUpdate email resp)) k =
          dictGet groups k := by
  refine ⟨?_, ?_, ?_⟩
  · simp only [add_settings, hemail, hkey]
  · intro f
    rw [dictUpdate, dictGet_insertAll,
      lookupLast_eq_dictGet_of_nodup resp f hnodup]
    cases dictGet resp f <;> rfl
  · intro k hk
    rw [dictGet_insert, if_neg (fun he => hk he.symm)]

/-- Witness for C5: a response identifying `"A@x.com"` updates the record
stored under `"a@x.com"`: its `f` field takes the response value, its `keep`
field survives, and the separate record stored under the key `"A@x.com"` is
untouched. -/
theorem C5_settings_merge_witness :
    add_settings c5_groups "1" (.ok c5_resp) =
      .ok (dictInsert c5_groups "a@x.com" (dictUpdate c5_email c5_resp))
    ∧ dictGet (dictUpdate c5_email c5_resp) "f" = some (JVal.str "new")
    ∧ dictGet (dictUpdate c5_email c5_resp) "keep" = some (JVal.str "k")
    ∧ dictGet (dictInsert c5_groups "a@x.com" (dictUpdate c5_email c5_resp))
        "A@x.com" = dictGet c5_groups "A@x.com" := by
  obtain ⟨ha, hb, hc⟩ :=
    C5_settings_merge c5_groups "1" c5_resp c5_email "A@x.com" rfl
      (by decide) rfl
  exact ⟨ha, (hb "f").trans rfl, (hb "keep").trans rfl,
    hc "A@x.com" (by decide)⟩

/-- C10: a successful settings sub-response whose lowercased `email` is not
a key of the group map makes the merge step raise a key-lookup error (it is
not logged and skipped); the error carries no updated map. -/
theorem C10_settings_unknown_email (groups : Dict Rec) (rid : String)
    (resp : Rec) (em : String)
    (hemail : dictGet resp "email" = some (JVal.str em))
    (hmiss : dictGet groups (pyLower em) = none) :
    add_settings groups rid (.ok resp) =
      .error ("KeyError: " ++ pyLower em) := by
  simp only [add_settings, hemail, hmiss]

/-- Witness for C10: a response for `"A@x.com"` against a map without an
`"a@x.com"` key raises the key-lookup error. -/
theorem C10_settings_unknown_email_witness :
    add_settings c10_groups "1" (.ok c10_resp) =
      .error "KeyError: a@x.com" := by
  rw [C10_settings_unknown_email c10_groups "1" c10_resp "A@x.com" rfl rfl]
  rfl

theorem insertGroups_ok (L : List Rec) (d G : Dict Rec)
    (h : insertGroups d L = .ok G) :
    (∀ gr ∈ L, (groupKey gr).isSome) ∧ G = insertAll d (groupPairs L) := by
  induction L generalizing d with
  | nil =>
      simp only [insertGroups, Except.ok.injEq] at h
      exact ⟨by simp, by simp [groupPairs, insertAll, h]⟩
  | cons gr rest ih =>
      cases hek : dictGet gr "email" with
      | none =>
          simp only [insertGroups, hek] at h
          exact Except.noConfusion h
      | some v =>
          cases v with
          | str em =>
              simp only [insertGroups, hek] at h
              obtain ⟨hall, hG⟩ := ih (dictInsert d (pyLower em) gr) h
              refine ⟨?_, ?_⟩
              · intro gr2 hm
                rcases List.mem_cons.mp hm with heq | hm2
                · subst heq
                  simp [groupKey, hek]
                · exact hall gr2 hm2
              · rw [hG,
                  show groupPairs (gr :: rest) =
                    (pyLower em, gr) :: groupPairs rest from by
                      simp [groupPairs, groupKey, hek],
                  insertAll]
          | num m =>
              simp only [insertGroups, hek] at h
              exact Except.noConfusion h
          | arr a =>
              simp only [insertGroups, hek] at h
              exact Except.noConfusion h

theorem get_groups_eq (g : GGBackup) (pages : List (List Rec))
    (hca : check_auth g = .ok ()) (gs : Dict Rec)
    (hins : insertGroups g.groups pages.flatten = .ok gs) :
    get_groups g pages = .ok { g with groups := gs } := by
  unfold get_groups
  rw [hca]
  show (match insertGroups g.groups pages.flatten with
    | .error e => (.error e : Except String GGBackup)
    | .ok gs => .ok { g with groups := gs }) = _
  rw [hins]

theorem insertGroups_complete (L : List Rec) (d : Dict Rec)
    (h : ∀ gr ∈ L, (groupKey gr).isSome) :
    insertGroups d L = .ok (insertAll d (groupPairs L)) := by
  induction L generalizing d with
  | nil => rfl
  | cons gr rest ih =>
      have hgk := h gr (List.mem_cons_self _ _)
      cases hek : dictGet gr "email" with
      | none => simp [groupKey, hek] at hgk
      | some v =>
          cases v with
          | str em =>
              rw [show groupPairs (gr :: rest) =
                  (pyLower em, gr) :: groupPairs rest from by
                    simp [groupPairs, groupKey, hek],
                insertAll]
              simp only [insertGroups, hek]
              exact ih (dictInsert d (pyLower em) gr)
                (fun g2 hm => h g2 (List.mem_cons_of_mem _ hm))
          | num m => simp [groupKey, hek] at hgk
          | arr a => simp [groupKey, hek] at hgk

/-- C7: running `get_groups` twice against an unchanged remote group set
gives a group map with the same key sequence and the same record under
every key as running it once — each group is re-inserted under its
lowercased email, overwriting rather than duplicating. -/
theorem C7_get_groups_idempotent (g g1 : GGBackup) (pages : List (List Rec))
    (h1 : get_groups g pages = .ok g1) :
    ∃ g2, get_groups g1 pages = .ok g2
      ∧ dictKeys g2.groups = dictKeys g1.groups
      ∧ ∀ k, dictGet g2.groups k = dictGet g1.groups k := by
  unfold get_groups at h1
  cases hca : check_auth g with
  | error e => rw [hca] at h1; cases h1
  | ok u =>
      cases u
      rw [hca] at h1
      cases hins : insertGroups g.groups pages.flatten with
      | error e => rw [hins] at h1; cases h1
      | ok gs =>
          rw [hins] at h1
          injection h1 with h2
          subst h2
          obtain ⟨hall, hGs⟩ := insertGroups_ok pages.flatten g.groups gs hins
          have hmemP : ∀ kv ∈ groupPairs pages.flatten, kv.1 ∈ dictKeys gs := by
            intro kv hkv
            obtain ⟨k, v⟩ := kv
            rw [hGs]
            exact mem_dictKeys_insertAll (groupPairs pages.flatten) g.groups
              k v hkv
          have hrun2 : insertGroups gs pages.flatten =
              .ok (insertAll gs (groupPairs pages.flatten)) :=
            insertGroups_complete pages.flatten gs hall
          refine ⟨{ g with
              groups := insertAll gs (groupPairs pages.flatten) }, ?_, ?_, ?_⟩
          · exact get_groups_eq { g with groups := gs } pages hca
              (insertAll gs (groupPairs pages.flatten)) hrun2
          · exact dictKeys_insertAll_of_subset (groupPairs pages.flatten)
              gs hmemP
          · intro k
            show dictGet (insertAll gs (groupPairs pages.flatten)) k =
              dictGet gs k
            rw [dictGet_insertAll]
            cases hl : lookupLast (groupPairs pages.flatten) k with
            | none => rfl
            | some v =>
                show some v = dictGet gs k
                rw [hGs, dictGet_insertAll, hl]

/-- Witness for C7: a concrete second run over the same single-page listing
returns a map with the same keys and records. -/
theorem C7_get_groups_idempotent_witness :
    ∃ g2, get_groups c7_g1 c7_pages = .ok g2
      ∧ dictKeys g2.groups = dictKeys c7_g1.groups
      ∧ ∀ k, dictGet g2.groups k = dictGet c7_g1.groups k :=
  C7_get_groups_idempotent c7_g0 c7_g1 c7_pages rfl

theorem batch_singleton {α : Type} (x : α) : batch [x] = [[x]] := by
  rw [batch_cons [x] (by simp), List.take_of_length_le (by simp),
    List.drop_eq_nil_of_le (by simp), batch_nil]

theorem rnb_empty (mapi : String → Option JVal → SubResult) (fuel : Nat)
    (st : MState) (h : st.next_batch = []) :
    run_next_batch mapi fuel st = .ok st := by
  cases fuel with
  | zero => simp [run_next_batch, h]
  | succ f => simp [run_next_batch, h]

theorem rnb_depth_empty (mapi : String → Option JVal → SubResult) (fuel : Nat)
    (st : MState) (h : st.next_batch = []) :
    run_next_batch_depth mapi fuel st = 1 := by
  cases fuel with
  | zero => rfl
  | succ f => simp [run_next_batch_depth, h]

theorem apiN_none (n : Nat) (gk : String) :
    apiN n gk none = .ok (memPage n 0) := rfl

theorem apiN_some (n i : Nat) (gk : String) :
    apiN n gk (some (JVal.num i)) = .ok (memPage n i) := rfl

theorem memPage_members (n i : Nat) :
    dictGet (memPage n i) "members" = some (JVal.arr []) := rfl

theorem respMembers_memPage (n i : Nat) :
    respMembers (memPage n i) = some [] := rfl

theorem memPage_token (n i : Nat) :
    dictGet (memPage n i) "nextPageToken" =
      if i + 1 < n then some (JVal.num (i + 1)) else none := by
  by_cases h : i + 1 < n <;> simp [memPage, dictGet, h]

theorem nextBatchAfter_memPage (nb : List (String × JVal)) (gk : String)
    (n i : Nat) :
    nextBatchAfter nb gk (memPage n i) =
      if i + 1 < n then nb ++ [(gk, JVal.num (i + 1))] else nb := by
  by_cases h : i + 1 < n <;> simp [nextBatchAfter, memPage_token, h]

theorem round_step (n i : Nat) (st : MState) (r : Rec) (ms : List String)
    (hnb : st.next_batch = [("g", JVal.num i)])
    (hr : dictGet st.groups "g" = some r)
    (hm : dictGet r "members" = some (JVal.arr ms)) :
    next_page_batches (apiN n) { st with next_batch := [] }
        (batch st.next_batch) =
      .ok { groups := dictInsert st.groups "g"
              (dictInsert r "members" (JVal.arr ms)),
            next_batch := if i + 1 < n then [("g", JVal.num (i + 1))] else [],
            calls := st.calls ++ [("g", some (JVal.num i))] } := by
  have hstep := add_members_ok st.groups [] "g" r (memPage n i) ms [] hr hm
    (respMembers_memPage n i)
  rw [hnb, batch_singleton]
  simp only [next_page_batches, next_page_batch, apiN_some, hstep,
    nextBatchAfter_memPage, List.append_nil, List.nil_append]

theorem rnb_scenario (n : Nat) (fuel : Nat) : ∀ i (st : MState),
    1 ≤ i → i < n → n - i ≤ fuel →
    st.next_batch = [("g", JVal.num i)] →
    ∀ r ms, dictGet st.groups "g" = some r →
      dictGet r "members" = some (JVal.arr ms) →
    (∃ gs, run_next_batch (apiN n) fuel st =
        .ok { groups := gs,
              next_batch := [],
              calls := st.calls ++ (List.range' i (n - i)).map
                (fun j => ("g", some (JVal.num j))) })
    ∧ run_next_batch_depth (apiN n) fuel st = (n - i) + 1 := by
  induction fuel with
  | zero =>
      intro i st h1 h2 h3 hnb r ms hr hm
      omega
  | succ f ih =>
      intro i st h1 h2 h3 hnb r ms hr hm
      have hne : ¬st.next_batch = [] := by rw [hnb]; simp
      have hround := round_step n i st r ms hnb hr hm
      have hrange : List.range' i (n - i) =
          i :: List.range' (i + 1) (n - (i + 1)) := by
        have he : n - i = (n - (i + 1)) + 1 := by omega
        rw [he, List.range'_succ]
      by_cases hlt : i + 1 < n
      · rw [if_pos hlt] at hround
        have hr2 : dictGet (dictInsert st.groups "g"
            (dictInsert r "members" (JVal.arr ms))) "g" =
            some (dictInsert r "members" (JVal.arr ms)) := by
          rw [dictGet_insert]
          simp
        have hm2 : dictGet (dictInsert r "members" (JVal.arr ms)) "members" =
            some (JVal.arr ms) := by
          rw [dictGet_insert]
          simp
        obtain ⟨⟨gs, hrun⟩, hdepth⟩ := ih (i + 1)
          { groups := dictInsert st.groups "g"
              (dictInsert r "members" (JVal.arr ms)),
            next_batch := [("g", JVal.num (i + 1))],
            calls := st.calls ++ [("g", some (JVal.num i))] }
          (by omega) hlt (by omega) rfl
          (dictInsert r "members" (JVal.arr ms)) ms hr2 hm2
      
        constructor
        · refine ⟨gs, ?_⟩
          simp only [run_next_batch]
          rw [if_neg hne, hround]
          show run_next_batch (apiN n) f _ = _
          rw [hrun, hrange]
          simp [List.append_assoc]
        · simp only [run_next_batch_depth]
          rw [if_neg hne, hround]
          show 1 + run_next_batch_depth (apiN n) f _ = n - i + 1
          rw [hdepth]
          omega
      · rw [if_neg hlt] at hround
        have h1n : n - i = 1 := by omega
        constructor
        · refine ⟨dictInsert st.groups "g"
            (dictInsert r "members" (JVal.arr ms)), ?_⟩
          simp only [run_next_batch]
          rw [if_neg hne, hround]
          show run_next_batch (apiN n) f
            { groups := dictInsert st.groups "g"
                (dictInsert r "members" (JVal.arr ms)),
              next_batch := [],
              calls := st.calls ++ [("g", some (JVal.num i))] } = _
          rw [rnb_empty (apiN n) f _ rfl, h1n, List.range'_one]
          simp
        · simp only [run_next_batch_depth]
          rw [if_neg hne, hround]
          show 1 + run_next_batch_depth (apiN n) f
            { groups := dictInsert st.groups "g"
                (dictInsert r "members" (JVal.arr ms)),
              next_batch := [],
              calls := st.calls ++ [("g", some (JVal.num i))] } = n - i + 1
          rw [rnb_depth_empty (apiN n) f _ rfl]
          omega

theorem first_pass_scenario (n : Nat) :
    first_pass (apiN n)
      { groups := [("g", [])], next_batch := [], calls := [] } [["g"]] =
      .ok (fpState n) := by
  have hstep := add_members_ok_absent [("g", [])] [] "g" [] (memPage n 0) []
    rfl rfl (respMembers_memPage n 0)
  simp only [first_pass, first_pass_batch, show pyLower "g" = "g" from rfl,
    apiN_none, hstep, nextBatchAfter_memPage, fpState]
  norm_num
  decide

theorem get_members_eq (g g1 : GGBackup)
    (mapi : String → Option JVal → SubResult) (fuel : Nat)
    (bs : List (List String)) (st1 st2 : MState)
    (hca : check_auth g = .ok ())
    (hgb : group_batches g = .ok (bs, g1))
    (hfp : first_pass mapi
      { groups := g1.groups, next_batch := [], calls := [] } bs = .ok st1)
    (hrun : run_next_batch mapi fuel st1 = .ok st2) :
    get_members g mapi fuel =
      .ok ({ g1 with groups := st2.groups }, st2.calls) := by
  simp only [get_members, hca, hgb, hfp, hrun]

theorem get_members_depth_eq (g g1 : GGBackup)
    (mapi : String → Option JVal → SubResult) (fuel : Nat)
    (bs : List (List String)) (st1 : MState)
    (hca : check_auth g = .ok ())
    (hgb : group_batches g = .ok (bs, g1))
    (hfp : first_pass mapi
      { groups := g1.groups, next_batch := [], calls := [] } bs = .ok st1) :
    get_members_stack_depth g mapi fuel =
      run_next_batch_depth mapi fuel st1 := by
  simp only [get_members_stack_depth, hca, hgb, hfp]

theorem get_members_scenario (n : Nat) (hn : 1 ≤ n) :
    (∃ g2, get_members scenarioG (apiN n) n = .ok (g2, callsOf n))
    ∧ (∃ st, run_next_batch (apiN n) n (fpState n) = .ok st
        ∧ st.next_batch = [] ∧ st.calls = callsOf n)
    ∧ get_members_stack_depth scenarioG (apiN n) n = n := by
  have hca : check_auth scenarioG = .ok () := rfl
  have hgb : group_batches scenarioG =
      .ok ([["g"]], { scenarioG with _group_batches := some [["g"]] }) := rfl
  have hfp : first_pass (apiN n)
      { groups := ({ scenarioG with
          _group_batches := some [["g"]] } : GGBackup).groups,
        next_batch := [], calls := [] } [["g"]] = .ok (fpState n) :=
    first_pass_scenario n
  by_cases h1n : 1 < n
  · obtain ⟨⟨gs, hrun⟩, hdepth⟩ := rnb_scenario n n 1 (fpState n) le_rfl h1n
      (by omega) (by simp [fpState, h1n]) [("members", JVal.arr [])] [] rfl rfl
    have hcalls : (fpState n).calls ++ (List.range' 1 (n - 1)).map
        (fun j => ("g", some (JVal.num j))) = callsOf n := by
      simp [fpState, callsOf]
    refine ⟨?_, ?_, ?_⟩
    · refine ⟨{ { scenarioG with _group_batches := some [["g"]] } with
        groups := gs }, ?_⟩
      rw [get_members_eq scenarioG _ (apiN n) n [["g"]] (fpState n) _
        hca hgb hfp hrun]
      simp only [hcalls]
    · exact ⟨_, hrun, rfl, hcalls⟩
    · rw [get_members_depth_eq scenarioG _ (apiN n) n [["g"]] (fpState n)
        hca hgb hfp, hdepth]
      omega
  · have hn1 : n = 1 := by omega
    subst hn1
    have hnbe : (fpState 1).next_batch = [] := rfl
    have hrun := rnb_empty (apiN 1) 1 (fpState 1) hnbe
    refine ⟨?_, ?_, ?_⟩
    · refine ⟨{ { scenarioG with _group_batches := some [["g"]] } with
        groups := (fpState 1).groups }, ?_⟩
      rw [get_members_eq scenarioG _ (apiN 1) 1 [["g"]] (fpState 1) (fpState 1)
        hca hgb hfp hrun]
      rfl
    · exact ⟨fpState 1, hrun, hnbe, rfl⟩
    · rw [get_members_depth_eq scenarioG _ (apiN 1) 1 [["g"]] (fpState 1)
        hca hgb hfp, rnb_depth_empty (apiN 1) 1 (fpState 1) hnbe]

/-- C4: in the scenario where the single group's membership response stream
has `n` pages (pages `1..n-1` carrying a numeric continuation token, page
`n` omitting it), `get_members` succeeds with fuel `n`, issuing exactly `n`
membership-list fetch calls — the tokenless first-page call followed by one
call per token `1..n-1`, each token consumed exactly once (the call log is
duplicate-free) — and the continuation loop ends with an empty pending
list. -/
theorem C4_pagination_termination (n : Nat) (hn : 1 ≤ n) :
    (∃ g2, get_members scenarioG (apiN n) n = .ok (g2, callsOf n))
    ∧ (∃ st, run_next_batch (apiN n) n (fpState n) = .ok st
        ∧ st.next_batch = [] ∧ st.calls = callsOf n)
    ∧ (callsOf n).length = n
    ∧ (callsOf n).Nodup := by
  obtain ⟨h1, h2, _⟩ := get_members_scenario n hn
  refine ⟨h1, h2, ?_, ?_⟩
  · simp [callsOf]
    omega
  · rw [callsOf, List.nodup_cons]
    constructor
    · simp
    · apply List.Nodup.map
      · intro a b hab
        simpa using hab
      · exact List.nodup_range' 1 (n - 1)

/-- Witness for C4: the three-page stream yields exactly three fetch calls
and an empty pending list. -/
theorem C4_pagination_termination_witness :
    (∃ g2, get_members scenarioG (apiN 3) 3 = .ok (g2, callsOf 3))
    ∧ (∃ st, run_next_batch (apiN 3) 3 (fpState 3) = .ok st
        ∧ st.next_batch = [] ∧ st.calls = callsOf 3)
    ∧ (callsOf 3).length = 3
    ∧ (callsOf 3).Nodup :=
  C4_pagination_termination 3 (by decide)

/-- C8 counterexample: the claim that the continuation loop's call-stack
depth is bounded by a constant independent of the maximum page count is
false — `run_next_batch` is self-recursive, and over the `n`-page scenarios
its nested-frame count exceeds every constant. -/
theorem C8_counterexample_stack_depth_unbounded :
    ¬∃ c : Nat, ∀ n : Nat, 1 ≤ n →
      get_members_stack_depth scenarioG (apiN n) n ≤ c := by
  rintro ⟨c, hc⟩
  have h := hc (c + 1) (by omega)
  rw [(get_members_scenario (c + 1) (by omega)).2.2] at h
  omega

/-- C8 (amended): the continuation loop of `get_members` is implemented as
self-recursion of `run_next_batch`, one nested invocation per continuation
round: in the `n`-page scenario the call-stack depth of the run equals `n`,
growing linearly with the page count rather than being bounded by a
constant. -/
theorem C8_stack_depth_linear (n : Nat) (hn : 1 ≤ n) :
    get_members_stack_depth scenarioG (apiN n) n = n :=
  (get_members_scenario n hn).2.2

/-- Witness for the amended C8: three pages give stack depth three. -/
theorem C8_stack_depth_linear_witness :
    get_members_stack_depth scenarioG (apiN 3) 3 = 3 :=
  C8_stack_depth_linear 3 (by decide)
